import Mathlib

/-!
Verification of the aws-testing-framework-test repository against its
natural-language specification.

The repository contains Cucumber step definitions (src/src/steps/custom-steps.ts,
src/src/steps/extend-steps.ts, the feature-only definitions in
src/cucumber-extend.js, and further step files among the unnamed sources).
Those step definitions are embedded here directly from the source.

The aws-testing-framework package itself (condition poller, resource locator,
correlation tracer, metrics aggregator, execution log reader) is an external
dependency whose code is not part of the repository; where a claim depends on
its behaviour, that behaviour is modelled from the specification.  Every such
definition carries a doc comment beginning with: Modelled from the spec.
-/

namespace ATF

/-! ## Scenario context

The typed per-scenario state struct: the optional fields of StepContext /
CustomStepContext / ExtendedStepContext that the embedded steps read and write.
-/

/-- One sample customer record, from the literal array in
src/src/steps/custom-steps.ts lines 60-65. -/
structure CustomerRecord where
  id : String
  name : String
  email : String
  valid : Bool
deriving DecidableEq, Repr

/-- Scenario-scoped step context: the named optional fields used by the
embedded step definitions.  Unset fields model fields never assigned on the
duck-typed cucumber context object. -/
structure Ctx where
  bucketName : Option String := none
  functionName : Option String := none
  stateMachineName : Option String := none
  queueName : Option String := none
  notificationQueueUrl : Option String := none
  correlationId : Option Nat := none
  executionArn : Option String := none
  uploadedFileName : Option String := none
  uploadedFileContent : Option String := none
  csvData : Option String := none
  customerRecords : Option (List CustomerRecord) := none
  customMetadata : Option (List (String × String)) := none
  businessContext : Option (List (String × String)) := none
deriving DecidableEq, Repr

/-! ## Substring matching

JavaScript String.prototype.includes is case-sensitive substring containment;
it is the matching primitive of every log-content check in the repository. -/

/-- Character-list prefix test (the Bool computation behind substring search). -/
def isPrefixOfCh : List Char → List Char → Bool
  | [], _ => true
  | _ :: _, [] => false
  | c :: cs, d :: ds => c == d && isPrefixOfCh cs ds

/-- Case-sensitive substring search on character lists: does pat occur
contiguously inside the second list. -/
def hasSubstr (pat : List Char) : List Char → Bool
  | [] => pat.isEmpty
  | c :: rest => isPrefixOfCh pat (c :: rest) || hasSubstr pat rest

/-- Embedding of the JavaScript expression s.includes(pat): case-sensitive
substring containment. -/
def strIncludes (s pat : String) : Bool :=
  hasSubstr pat.data s.data

/-- The specification notion of containment: pat occurs in s as a contiguous,
case-sensitive substring. -/
def SubstrOf (pat s : String) : Prop :=
  ∃ pre post : List Char, pre ++ pat.data ++ post = s.data

/-- Embedding of the JavaScript truthiness test on a string: only the empty
string is falsy. -/
def jsFalsyStr (s : String) : Bool :=
  s == ""

/-! ## Condition poller

Modelled from the spec (section 4.2, Condition Poller): the repository calls
framework.waitForCondition / healthValidator.waitForCondition, whose code is
external.  The condition is re-evaluated once per tick; the observation the
condition sees at the i-th evaluation is abstracted as an argument indexed by
the attempt number. -/

/-- Outcome of one poll: success records how many condition evaluations were
made and how many sleep intervals elapsed before success; timeoutError records
the attempts made and the elapsed milliseconds when the budget ran out. -/
inductive PollResult
  | success (attempts : Nat) (sleeps : Nat)
  | timeoutError (attempts : Nat) (elapsedMs : Nat)
deriving DecidableEq, Repr

/-- Modelled from the spec: the poll loop.  Evaluate the condition; if true,
return success immediately; otherwise sleep one interval and retry; stop with
timeoutError once the elapsed time reaches the timeout.  The fuel argument
bounds the recursion and is chosen large enough to never run out when the
interval is positive. -/
def pollAwaitAux (cond : Nat → Bool) (timeoutMs intervalMs : Nat) :
    Nat → Nat → Nat → PollResult
  | 0, attempts, elapsed => .timeoutError attempts elapsed
  | fuel + 1, attempts, elapsed =>
    if cond attempts then
      .success (attempts + 1) attempts
    else if timeoutMs ≤ elapsed + intervalMs then
      .timeoutError (attempts + 1) (elapsed + intervalMs)
    else
      pollAwaitAux cond timeoutMs intervalMs fuel (attempts + 1) (elapsed + intervalMs)

/-- Modelled from the spec: await(condition, policy).  cond i is the value the
condition evaluates to at its i-th evaluation. -/
def pollAwait (cond : Nat → Bool) (timeoutMs intervalMs : Nat) : PollResult :=
  pollAwaitAux cond timeoutMs intervalMs (timeoutMs + 1) 0 0

/-! ## Resource locator

Modelled from the spec (section 4.1, Resource Locator): locate resolves a
(kind, name) pair against the configured environment, caches the handle for
the scenario, and repeated calls hit the cache without a provider query. -/

/-- The four resource kinds of the data model. -/
inductive ResourceKind
  | bucket
  | function
  | stateMachine
  | queue
deriving DecidableEq, Repr

/-- Resolved, cached reference to a named cloud resource. -/
structure ResourceHandle where
  kind : ResourceKind
  name : String
  resolvedIdentifier : String
deriving DecidableEq, Repr

/-- The configured environment: which named resources exist and their
provider identifiers. -/
structure Env where
  resources : List (ResourceKind × String × String)
deriving DecidableEq, Repr

/-- Modelled from the spec: the provider primitive findResource(kind, name),
returning the identifier of the named resource when it exists. -/
def findResource (env : Env) (k : ResourceKind) (n : String) : Option String :=
  (env.resources.find? (fun r => r.1 == k && r.2.1 == n)).map (fun r => r.2.2)

/-- Scenario-lifetime cache of resolved handles. -/
structure LocatorCache where
  entries : List ResourceHandle
deriving DecidableEq, Repr

/-- Typed locator failure. -/
inductive LocateError
  | notFound
  | accessDenied
deriving DecidableEq, Repr

/-- Result of one locate call: the outcome, the updated cache, and whether a
provider query was issued. -/
structure LocateResult where
  result : Except LocateError ResourceHandle
  cache : LocatorCache
  queriedProvider : Bool
deriving Repr

/-- Modelled from the spec: locate(kind, name).  A cache hit returns the
cached handle without querying the provider; a miss queries the provider,
caches a fresh handle on success, and fails with notFound when the named
resource does not exist. -/
def locate (env : Env) (cache : LocatorCache) (k : ResourceKind) (n : String) :
    LocateResult :=
  match cache.entries.find? (fun h => h.kind == k && h.name == n) with
  | some h => ⟨.ok h, cache, false⟩
  | none =>
    match findResource env k n with
    | some ident => ⟨.ok ⟨k, n, ident⟩, ⟨cache.entries ++ [⟨k, n, ident⟩]⟩, true⟩
    | none => ⟨.error .notFound, cache, true⟩

/-- Embedding of framework.findQueue as documented by the source comment at
src/src/steps/custom-steps.ts line 44: it returns the resolved queue URL, and
returns the empty string, not an error, when the queue does not exist. -/
def findQueue (env : Env) (queueName : String) : String :=
  match findResource env .queue queueName with
  | some url => url
  | none => ""

/-- Embedding of the step I have a notification system with SQS queue,
src/src/steps/custom-steps.ts lines 38-49: resolve the queue URL via
framework.findQueue and throw a plain Error when the result is empty. -/
def notificationSystemStep (env : Env) (queueName : String) : Except String String :=
  let url := findQueue env queueName
  if url = "" then .error ("SQS queue " ++ queueName ++ " not found")
  else .ok url

/-! ## Provider calls and step outcomes

Each embedded step records, in source order, the framework or service
invocations it performs, so that fail-fast behaviour (an error raised before
any provider call) is observable. -/

/-- A notification message body, structurally: the JSON object built by
JSON.stringify in the step at src/src/steps/custom-steps.ts lines 181-186. -/
structure NotificationMessage where
  type : String
  email : String
  priority : String
  timestamp : String
deriving DecidableEq, Repr

/-- One provider (AWS) interaction performed by a step, coarse-grained: one
entry per framework or service call in the source. -/
inductive ProviderCall
  | findQueueCall (queueName : String)
  | uploadFile (bucket fileName : String)
  | uploadTracked (fileName : String) (correlationId : Nat)
  | checkFileExistsPolled (bucket fileName : String)
  | getMetrics (functionName : String)
  | getExecutionDetails (stateMachineName : String)
  | verifySLAs (executionArn : String)
  | sendMessage (queueUrl : String) (message : NotificationMessage)
  | traceFile (fileName : String) (correlationId : Nat)
  | getLambdaLogs (functionName : String)
deriving DecidableEq, Repr

/-- Outcome of running one step: the provider calls it issued, in order, and
its result.  An error result with an empty call list is a fail-fast
precondition failure: the step raised before touching any provider and the
scenario context is unchanged. -/
structure StepRun (α : Type) where
  calls : List ProviderCall
  result : Except String α
deriving Repr

/-! ## Correlation tracer.

Modelled from the spec (sections 3 and 4.4): uploadFileWithTracking attaches
the correlation id to the artifact before the upload is dispatched, and every
downstream record produced from that artifact carries the id; the trace lookup
for a (file, id) pair reports a stage event only when that stage holds an
event for the file whose payload contains that id. -/

/-- An upload event: the object name together with the correlation id that was
attached to the artifact. -/
structure UploadEvent where
  fileName : String
  correlationId : Nat
deriving DecidableEq, Repr

/-- Observable pipeline state: the upload events and the correlation ids
carried by the Lambda executions the pipeline produced downstream. -/
structure World where
  uploads : List UploadEvent
  lambdaRuns : List Nat
deriving DecidableEq, Repr

/-- Modelled from the spec: uploadFileWithTracking(bucket, name, content, id)
attaches id to the artifact and dispatches the upload; the pipeline under test
then produces the downstream Lambda execution carrying the same id (the best
case for the code: the pipeline itself never loses an id). -/
def uploadTrackedModel (w : World) (fileName : String) (cid : Nat) : World :=
  ⟨w.uploads ++ [⟨fileName, cid⟩], w.lambdaRuns ++ [cid]⟩

/-- Result of traceFileThroughWorkflow: the stage events found for the given
file and correlation id. -/
structure WorkflowTrace where
  s3Event : Option UploadEvent
  lambdaExecution : Option Nat
deriving DecidableEq, Repr

/-- Modelled from the spec: traceFileThroughWorkflow(fileName, correlationId)
reports the upload event for fileName whose attached id is correlationId, and
the downstream Lambda execution whose payload carries correlationId. -/
def traceFileThroughWorkflow (w : World) (fileName : String) (cid : Nat) :
    WorkflowTrace :=
  ⟨w.uploads.find? (fun e => e.fileName == fileName && e.correlationId == cid),
   w.lambdaRuns.find? (fun c => c == cid)⟩

/-- The three files of the multiple-upload step, src file part_005 lines
119-123, with their JSON.stringify contents. -/
def pipelineFiles : List (String × String) :=
  [("file1.json", "\x7b\"id\":1,\"data\":\"test1\"\x7d"),
   ("file2.json", "\x7b\"id\":2,\"data\":\"test2\"\x7d"),
   ("file3.json", "\x7b\"id\":3,\"data\":\"test3\"\x7d")]

/-- The loop body of the multiple-upload step: for each file, generate a fresh
correlation id (modelled by a counter), overwrite the context correlationId
field with it, and upload with tracking.  Mirrors part_005 lines 125-138. -/
def uploadFilesLoop : Ctx → World → Nat → List (String × String) →
    (Ctx × World × Nat) × List ProviderCall
  | ctx, w, n, [] => ((ctx, w, n), [])
  | ctx, w, n, f :: fs =>
    let ctx2 : Ctx := { ctx with correlationId := some n }
    let w2 := uploadTrackedModel w f.1 n
    let (res, calls) := uploadFilesLoop ctx2 w2 (n + 1) fs
    (res, .uploadTracked f.1 n :: calls)

/-- Embedding of the step I upload multiple files to the S3 bucket, src file
part_005 lines 112-140. -/
def uploadMultipleFilesStep (ctx : Ctx) (w : World) (nextCid : Nat) :
    StepRun (Ctx × World × Nat) :=
  match ctx.bucketName with
  | none => ⟨[], .error "Bucket name is not set"⟩
  | some _ =>
    let (res, calls) := uploadFilesLoop ctx w nextCid pipelineFiles
    ⟨calls, .ok res⟩

/-- The loop body of the trace-all-files step: trace each file with the single
correlation id taken from the context, throwing at the first file whose trace
lacks an s3Event or a lambdaExecution.  Mirrors part_005 lines 152-166. -/
def traceFilesLoop (w : World) (cid : Nat) : List String → StepRun Unit
  | [] => ⟨[], .ok ()⟩
  | f :: fs =>
    let tr := traceFileThroughWorkflow w f cid
    if tr.s3Event.isNone then
      ⟨[.traceFile f cid], .error ("S3 event not found for file " ++ f)⟩
    else if tr.lambdaExecution.isNone then
      ⟨[.traceFile f cid], .error ("Lambda execution not found for file " ++ f)⟩
    else
      let rest := traceFilesLoop w cid fs
      ⟨.traceFile f cid :: rest.calls, rest.result⟩

/-- Embedding of the step I should be able to trace all files through the
entire pipeline, src file part_005 lines 143-168. -/
def traceAllFilesStep (ctx : Ctx) (w : World) : StepRun Unit :=
  match ctx.correlationId with
  | none => ⟨[], .error "Correlation ID is not set"⟩
  | some cid => traceFilesLoop w cid ["file1.json", "file2.json", "file3.json"]

/-- The two steps of the multiple-file scenario composed in order, starting
from a context holding only the bucket name, an empty pipeline state, and a
fresh correlation-id counter. -/
def pipelineScenario : Except String Unit :=
  match (uploadMultipleFilesStep { bucketName := some "test-bucket" } ⟨[], []⟩ 0).result with
  | .error e => .error e
  | .ok (ctx1, w1, _) => (traceAllFilesStep ctx1 w1).result

/-! ## Metrics aggregator

Modelled from the spec (section 4.5, Metrics Aggregator): the repository calls
framework.getLambdaExecutionMetrics, whose code is external. -/

/-- An execution record as retrieved by the execution log reader. -/
structure ExecutionRecord where
  durationMs : ℚ
  succeeded : Bool
  coldStart : Bool
deriving DecidableEq, Repr

/-- The metrics object returned by getLambdaExecutionMetrics.  averageDuration
is none when there are no records: the defined no-data sentinel (NaN in the
JavaScript implementation, since 0 / 0 is NaN). -/
structure LambdaMetrics where
  executionCount : Nat
  errors : Nat
  averageDuration : Option ℚ
  coldStarts : Nat
deriving DecidableEq, Repr

/-- Modelled from the spec: metrics over a window of execution records.
executionCount is the number of records, errors counts records with
succeeded = false, averageDuration is the arithmetic mean of the durations
(none when there are no records), coldStarts counts cold-start records. -/
def getLambdaExecutionMetrics (records : List ExecutionRecord) : LambdaMetrics :=
  { executionCount := records.length
    errors := (records.filter (fun r => !r.succeeded)).length
    averageDuration :=
      if records.isEmpty then none
      else some ((records.map (fun r => r.durationMs)).sum / records.length)
    coldStarts := (records.filter (fun r => r.coldStart)).length }

/-- Embedding of the JavaScript comparison x > y where x may be the NaN
sentinel: every comparison against NaN is false. -/
def jsGtNaN (x : Option ℚ) (y : ℚ) : Bool :=
  match x with
  | none => false
  | some v => decide (y < v)

/-- Embedding of the step the Lambda function should have acceptable execution
metrics, src file part_005 lines 21-46: fetch metrics over the last five
minutes and throw when averageDuration exceeds 30000 ms or errors exceed 5. -/
def acceptableExecutionMetricsStep (ctx : Ctx) (records : List ExecutionRecord) :
    StepRun Unit :=
  match ctx.functionName with
  | none => ⟨[], .error "Lambda function name is not set"⟩
  | some fn =>
    let metrics := getLambdaExecutionMetrics records
    ⟨[.getMetrics fn],
     if jsGtNaN metrics.averageDuration 30000 then
       .error "Average execution time is too high"
     else if 5 < metrics.errors then
       .error "Too many errors"
     else .ok ()⟩

/-- A state-machine execution as listed by the Step Function service: its ARN
and, when present, its start date (epoch milliseconds). -/
structure SfnExecution where
  executionArn : String
  startDate : Option Nat
deriving DecidableEq, Repr

/-- The verdict of the external verifyStepFunctionSLAs call. -/
structure SLAResult where
  meetsSLAs : Bool
  violations : List String
deriving DecidableEq, Repr

/-- Embedding of the step the Step Function should meet performance SLAs, src
file part_005 lines 78-109: list the executions, throw when there are none,
then verify the SLAs of the latest execution (the last list element) and throw
when they are not met.  The external SLA verdict is passed in as verify. -/
def stepFunctionSLAStep (ctx : Ctx) (executions : List SfnExecution)
    (verify : String → SLAResult) : StepRun Unit :=
  match ctx.stateMachineName with
  | none => ⟨[], .error "Step Function name is not set"⟩
  | some sm =>
    match executions.getLast? with
    | none => ⟨[.getExecutionDetails sm], .error "No Step Function executions found"⟩
    | some latest =>
      ⟨[.getExecutionDetails sm, .verifySLAs latest.executionArn],
       if (verify latest.executionArn).meetsSLAs then .ok ()
       else .error "SLA violations"⟩

/-! ## Log-content checks -/

/-- The error indicator patterns of the log checks in src/cucumber-extend.js
lines 181 and 412. -/
def errorIndicators : List String :=
  ["ERROR", "Exception", "Error:", "FAILED"]

/-- Embedding of the check logs.some(log, patterns.some(p, log.includes(p)))
used by the log steps: true when at least one log entry contains at least one
pattern as a case-sensitive substring. -/
def logsHaveErrors (logs patterns : List String) : Bool :=
  logs.any (fun log => patterns.any (fun p => strIncludes log p))

/-- Result of the containsAny projection of the execution log reader.  The
field matchingLogs is the matches sequence of the specification (named after
the matchingLogs field the source reads on verifyLambdaLogsContain results). -/
structure ContainsAnyResult where
  found : Bool
  matchingLogs : List String
deriving DecidableEq, Repr

/-- Modelled from the spec: containsAny(handle, window, patterns) reports
whether any log entry contains any pattern as a case-sensitive substring,
together with the matching entries. -/
def containsAny (logs patterns : List String) : ContainsAnyResult :=
  let ms := logs.filter (fun log => patterns.any (fun p => strIncludes log p))
  ⟨!ms.isEmpty, ms⟩

/-- Embedding of the step the feature-only Lambda function logs should not
contain errors, src/cucumber-extend.js lines 398-423. -/
def featureLambdaLogsNoErrorsStep (ctx : Ctx) (logs : List String) : StepRun Unit :=
  match ctx.functionName with
  | none => ⟨[], .error "Lambda function name is not set"⟩
  | some fn =>
    ⟨[.getLambdaLogs fn],
     if logsHaveErrors logs errorIndicators then
       .error "Lambda logs contain error indicators"
     else .ok ()⟩

/-- Embedding of the step the feature-only processing should complete without
errors, src/cucumber-extend.js lines 169-192: the same error-pattern check
with a different failure message. -/
def featureProcessingNoErrorsStep (ctx : Ctx) (logs : List String) : StepRun Unit :=
  match ctx.functionName with
  | none => ⟨[], .error "Lambda function name is not set"⟩
  | some fn =>
    ⟨[.getLambdaLogs fn],
     if logsHaveErrors logs errorIndicators then
       .error "Processing completed with errors"
     else .ok ()⟩

/-! ## Notification steps, src/src/steps/custom-steps.ts -/

/-- The notification body built by the trigger step at lines 181-186: a JSON
object with type user_notification, the given user email, priority high, and
the current timestamp. -/
def triggerNotificationEvent (userEmail timestamp : String) : NotificationMessage :=
  { type := "user_notification"
    email := userEmail
    priority := "high"
    timestamp := timestamp }

/-- Embedding of the step I trigger a notification event for user, lines
174-190: require the queue URL, then send the notification message to the
queue. -/
def triggerNotificationStep (ctx : Ctx) (queue : List NotificationMessage)
    (userEmail timestamp : String) : StepRun (List NotificationMessage) :=
  match ctx.notificationQueueUrl with
  | none => ⟨[], .error "Notification queue URL is not set"⟩
  | some url =>
    let m := triggerNotificationEvent userEmail timestamp
    ⟨[.sendMessage url m], .ok (queue ++ [m])⟩

/-- Embedding of the email check of the step the message should contain the
user email address, lines 208-231, applied to the received message body: throw
unless the email field is truthy and contains an at sign. -/
def emailVerificationStep (m : NotificationMessage) : Except String Unit :=
  if jsFalsyStr m.email || !strIncludes m.email "@" then
    .error "Message does not contain valid email address"
  else .ok ()

/-- Embedding of the priority check of the step the message should have the
correct priority level, lines 234-255, applied to the received message body:
throw unless the priority field equals high. -/
def priorityVerificationStep (m : NotificationMessage) : Except String Unit :=
  if m.priority == "high" then .ok ()
  else .error "Incorrect priority level"

/-! ## Upload steps with precondition checks -/

/-- The literal sample records of the CSV upload step,
src/src/steps/custom-steps.ts lines 60-65. -/
def sampleCustomerRecords : List CustomerRecord :=
  [⟨"1", "John Doe", "john.doe@example.com", true⟩,
   ⟨"2", "Jane Smith", "jane.smith@example.com", true⟩,
   ⟨"3", "Bob Johnson", "bob.johnson@example.com", true⟩,
   ⟨"4", "Invalid User", "invalid-email", false⟩]

/-- The CSV text built at lines 68-71: a header row followed by one line per
record. -/
def csvOfRecords (records : List CustomerRecord) : String :=
  records.foldl
    (fun acc r => acc ++ r.id ++ "," ++ r.name ++ "," ++ r.email ++ "\n")
    "id,name,email\n"

/-- Embedding of the step I upload a CSV file with valid customer records,
src/src/steps/custom-steps.ts lines 52-85: require the bucket name, build the
sample data, generate a correlation id, and upload with tracking. -/
def uploadCsvStep (ctx : Ctx) (fileName : String) (nextCid : Nat) : StepRun Ctx :=
  match ctx.bucketName with
  | none => ⟨[], .error "Bucket name is not set"⟩
  | some _ =>
    let ctx2 : Ctx :=
      { ctx with
        customerRecords := some sampleCustomerRecords
        csvData := some (csvOfRecords sampleCustomerRecords)
        correlationId := some nextCid
        uploadedFileName := some fileName }
    ⟨[.uploadTracked fileName nextCid], .ok ctx2⟩

/-- Embedding of the overriding upload step I upload a file with content to
the S3 bucket, src/src/steps/extend-steps.ts lines 27-63: require the bucket
name, record the file name and content, attach the custom metadata and
business context, and upload. -/
def uploadFileEnhancedStep (ctx : Ctx) (fileName content now : String) : StepRun Ctx :=
  match ctx.bucketName with
  | none => ⟨[], .error "Bucket name is not set. Make sure to create a bucket first."⟩
  | some bucket =>
    let ctx2 : Ctx :=
      { ctx with
        uploadedFileName := some fileName
        uploadedFileContent := some content
        customMetadata := some
          [("business-unit", "extended-testing"),
           ("data-classification", "internal"),
           ("retention-period", "90-days"),
           ("upload-timestamp", now)]
        businessContext := some
          [("department", "Engineering"),
           ("project", "Extended Testing Framework"),
           ("priority", "High"),
           ("owner", "Test Team")] }
    ⟨[.uploadFile bucket fileName], .ok ctx2⟩

/-- Embedding of the step the S3 bucket should contain the file, src file
part_005 lines 7-18: require the bucket name, then poll checkFileExists with a
30000 ms timeout.  fileExists i is the provider answer at the i-th poll tick;
the poll interval of the external waitForCondition is a parameter. -/
def bucketContainsFileStep (ctx : Ctx) (fileName : String)
    (fileExists : Nat → Bool) (intervalMs : Nat) : StepRun Unit :=
  match ctx.bucketName with
  | none => ⟨[], .error "Bucket name is not set"⟩
  | some bucket =>
    ⟨[.checkFileExistsPolled bucket fileName],
     match pollAwait fileExists 30000 intervalMs with
     | .success _ _ => .ok ()
     | .timeoutError _ _ => .error "TimeoutError"⟩

/-! ## Lambda invocation-count step -/

/-- The poll timeout used by the step the Lambda function should be invoked N
times within M minutes, src/src/steps/extend-steps.ts line 491 (and the
identical definitions in the unnamed sources): a constant 60000 ms, one
minute, whatever N and M are. -/
def invokedTimesTimeoutMs (_expectedCount _minutes : Nat) : Nat :=
  60000

/-- Embedding of the step the Lambda function should be invoked N times within
M minutes, src/src/steps/extend-steps.ts lines 477-495: require the function
name, then poll the condition that the execution count over the last M minutes
has reached N, with the constant 60000 ms timeout.  counts i is the count
observed at the i-th poll tick; a timeoutError poll outcome is the raised
TimeoutError. -/
def lambdaInvokedTimesStep (ctx : Ctx) (counts : Nat → Nat)
    (expectedCount minutes intervalMs : Nat) : Except String PollResult :=
  match ctx.functionName with
  | none => .error "Lambda function name is not set"
  | some _ =>
    .ok (pollAwait (fun i => decide (expectedCount ≤ counts i))
      (invokedTimesTimeoutMs expectedCount minutes) intervalMs)

/-! ## Execution-ARN capture step, src file part_007 -/

/-- The sort key of the capture step: the execution start date as epoch
milliseconds (only ever applied to executions that have one). -/
def startMs (e : SfnExecution) : Nat :=
  e.startDate.getD 0

/-- Descending insertion by start date, the building block of the sort at
part_007 lines 42-48 (comparator timeB - timeA, most recent first). -/
def insertDesc (e : SfnExecution) : List SfnExecution → List SfnExecution
  | [] => [e]
  | f :: fs =>
    if startMs f ≤ startMs e then e :: f :: fs
    else f :: insertDesc e fs

/-- Sort a list of executions by start date, most recent first. -/
def sortByStartDesc : List SfnExecution → List SfnExecution
  | [] => []
  | e :: es => insertDesc e (sortByStartDesc es)

/-- Embedding of the step the Step Function execution ARN should be captured,
src file part_007 lines 21-57: require the state machine name; return
unchanged when executionArn is already set; otherwise throw when no executions
exist, keep the executions that have a start date, sort them most recent
first, throw when none remain, and store the ARN of the most recent one. -/
def captureExecutionArnStep (ctx : Ctx) (executions : List SfnExecution) :
    Except String Ctx :=
  match ctx.stateMachineName with
  | none => .error "State machine name is not set. Make sure to create a Step Function first."
  | some sm =>
    match ctx.executionArn with
    | some _ => .ok ctx
    | none =>
      match executions with
      | [] =>
        .error ("No executions found for Step Function \"" ++ sm ++
          "\". Make sure the Step Function was triggered.")
      | _ :: _ =>
        match sortByStartDesc (executions.filter (fun e => e.startDate.isSome)) with
        | [] => .error ("No recent executions found for Step Function \"" ++ sm ++ "\".")
        | mostRecent :: _ => .ok { ctx with executionArn := some mostRecent.executionArn }

/-! ## Helper lemmas -/

/-- The prefix test computes list-prefix decomposition. -/
theorem isPrefixOfCh_iff (p l : List Char) :
    isPrefixOfCh p l = true ↔ ∃ r, p ++ r = l := by
  induction p generalizing l with
  | nil => simp [isPrefixOfCh]
  | cons c cs ih =>
    cases l with
    | nil => simp [isPrefixOfCh]
    | cons d ds =>
      simp only [isPrefixOfCh, Bool.and_eq_true, beq_iff_eq, ih, List.cons_append,
        List.cons.injEq]
      constructor
      · rintro ⟨rfl, r, rfl⟩; exact ⟨r, rfl, rfl⟩
      · rintro ⟨r, rfl, rfl⟩; exact ⟨rfl, r, rfl⟩

/-- The substring search computes contiguous-substring decomposition. -/
theorem hasSubstr_iff (pat l : List Char) :
    hasSubstr pat l = true ↔ ∃ pre post, pre ++ pat ++ post = l := by
  induction l with
  | nil =>
    simp only [hasSubstr, List.isEmpty_iff]
    constructor
    · rintro rfl; exact ⟨[], [], rfl⟩
    · rintro ⟨pre, post, h⟩
      rcases List.append_eq_nil.mp h with ⟨h1, h2⟩
      exact (List.append_eq_nil.mp h1).2
  | cons c rest ih =>
    simp only [hasSubstr, Bool.or_eq_true, isPrefixOfCh_iff, ih]
    constructor
    · rintro (⟨r, h⟩ | ⟨pre, post, h⟩)
      · exact ⟨[], r, by simpa using h⟩
      · exact ⟨c :: pre, post, by simp [h]⟩
    · rintro ⟨pre, post, h⟩
      cases pre with
      | nil => exact Or.inl ⟨post, by simpa using h⟩
      | cons x xs =>
        simp only [List.cons_append, List.cons.injEq] at h
        obtain ⟨rfl, h2⟩ := h
        exact Or.inr ⟨xs, post, h2⟩

/-- The embedded includes agrees with the specification notion of
case-sensitive substring containment. -/
theorem strIncludes_iff (s pat : String) :
    strIncludes s pat = true ↔ SubstrOf pat s := by
  rw [strIncludes, hasSubstr_iff]; rfl

/-- Containing the one-character string with the at sign is containing the at
sign character. -/
theorem strIncludes_at_iff (s : String) :
    strIncludes s "@" = true ↔ '@' ∈ s.data := by
  rw [strIncludes_iff]
  have hd : "@".data = ['@'] := rfl
  constructor
  · rintro ⟨pre, post, h⟩
    rw [← h, hd]
    simp
  · intro h
    obtain ⟨l1, l2, h⟩ := List.append_of_mem h
    exact ⟨l1, l2, by simp [hd, h]⟩

/-- A condition that is true at its first evaluation makes the poll loop
succeed on the spot, with one attempt and no sleep. -/
theorem pollAwait_immediate (cond : Nat → Bool) (timeoutMs intervalMs : Nat)
    (h : cond 0 = true) :
    pollAwait cond timeoutMs intervalMs = .success 1 0 := by
  simp [pollAwait, pollAwaitAux, h]

/-- A condition that never becomes true exhausts the poll budget: the loop
returns timeoutError with elapsed time at least the timeout and below the
timeout plus one interval. -/
theorem pollAwaitAux_never (cond : Nat → Bool) (timeoutMs intervalMs : Nat)
    (hcond : ∀ j, cond j = false) :
    ∀ fuel attempts elapsed, elapsed < timeoutMs →
      timeoutMs ≤ elapsed + fuel * intervalMs →
      ∃ a e, pollAwaitAux cond timeoutMs intervalMs fuel attempts elapsed =
          .timeoutError a e ∧ timeoutMs ≤ e ∧ e < timeoutMs + intervalMs := by
  intro fuel
  induction fuel with
  | zero => intro attempts elapsed h1 h2; simp at h2; omega
  | succ fuel ih =>
    intro attempts elapsed h1 h2
    rw [pollAwaitAux, hcond attempts]
    simp only [Bool.false_eq_true, if_false]
    by_cases hc : timeoutMs ≤ elapsed + intervalMs
    · exact ⟨attempts + 1, elapsed + intervalMs, by rw [if_pos hc], hc, by omega⟩
    · rw [if_neg hc]
      have hstep : elapsed + (fuel + 1) * intervalMs =
          elapsed + intervalMs + fuel * intervalMs := by ring
      exact ih (attempts + 1) (elapsed + intervalMs) (by omega) (by omega)

/-- Top-level form of the exhaustion lemma. -/
theorem pollAwait_never (cond : Nat → Bool) (timeoutMs intervalMs : Nat)
    (hcond : ∀ j, cond j = false) (hi : 0 < intervalMs) (ht : 0 < timeoutMs) :
    ∃ a e, pollAwait cond timeoutMs intervalMs = .timeoutError a e ∧
      timeoutMs ≤ e ∧ e < timeoutMs + intervalMs := by
  refine pollAwaitAux_never cond timeoutMs intervalMs hcond
    (timeoutMs + 1) 0 0 ht ?_
  have : timeoutMs + 1 ≤ (timeoutMs + 1) * intervalMs :=
    Nat.le_mul_of_pos_right _ hi
  omega

/-- Membership through descending insertion. -/
theorem mem_insertDesc {x e : SfnExecution} {l : List SfnExecution} :
    x ∈ insertDesc e l ↔ x = e ∨ x ∈ l := by
  induction l with
  | nil => simp [insertDesc]
  | cons f fs ih =>
    by_cases h : startMs f ≤ startMs e
    · simp [insertDesc, h]
    · simp only [insertDesc, if_neg h, List.mem_cons, ih]
      tauto

/-- Descending insertion never produces the empty list. -/
theorem insertDesc_ne_nil (e : SfnExecution) (l : List SfnExecution) :
    insertDesc e l ≠ [] := by
  cases l with
  | nil => simp [insertDesc]
  | cons f fs =>
    by_cases h : startMs f ≤ startMs e <;> simp [insertDesc, h]

/-- The descending sort returns the empty list only on the empty list. -/
theorem sortByStartDesc_eq_nil_iff {l : List SfnExecution} :
    sortByStartDesc l = [] ↔ l = [] := by
  cases l with
  | nil => simp [sortByStartDesc]
  | cons e es => simp [sortByStartDesc, insertDesc_ne_nil]

/-- The head of the descending sort is an element of the input with maximal
start date. -/
theorem sortByStartDesc_head_max {l : List SfnExecution} {m : SfnExecution}
    {rest : List SfnExecution} (h : sortByStartDesc l = m :: rest) :
    m ∈ l ∧ ∀ x ∈ l, startMs x ≤ startMs m := by
  induction l generalizing m rest with
  | nil => simp [sortByStartDesc] at h
  | cons e es ih =>
    rw [sortByStartDesc] at h
    rcases hs : sortByStartDesc es with _ | ⟨m0, r0⟩
    · rw [hs] at h
      simp only [insertDesc] at h
      injection h with h1 h2
      subst h1
      have hes : es = [] := sortByStartDesc_eq_nil_iff.mp hs
      subst hes
      exact ⟨by simp, by simp⟩
    · rw [hs] at h
      obtain ⟨hm0, hmax⟩ := ih hs
      simp only [insertDesc] at h
      by_cases hc : startMs m0 ≤ startMs e
      · rw [if_pos hc] at h
        injection h with h1 h2
        subst h1
        refine ⟨by simp, ?_⟩
        intro x hx
        rcases List.mem_cons.mp hx with rfl | hx
        · exact le_refl _
        · exact le_trans (hmax x hx) hc
      · rw [if_neg hc] at h
        injection h with h1 h2
        subst h1
        push_neg at hc
        refine ⟨List.mem_cons_of_mem _ hm0, ?_⟩
        intro x hx
        rcases List.mem_cons.mp hx with rfl | hx
        · exact le_of_lt hc
        · exact hmax x hx

/-- find? skips over a block in which nothing satisfies the predicate. -/
theorem find?_append_of_none {α : Type} (p : α → Bool) {l1 : List α} (l2 : List α)
    (h : l1.find? p = none) : (l1 ++ l2).find? p = l2.find? p := by
  induction l1 with
  | nil => simp
  | cons a l ih =>
    by_cases hp : p a
    · rw [List.find?_cons_of_pos _ hp] at h
      exact absurd h (by simp)
    · rw [List.find?_cons_of_neg _ hp] at h
      rw [List.cons_append, List.find?_cons_of_neg _ hp]
      exact ih h

/-- The error-pattern scan finds a hit exactly when some log entry contains
some pattern as a substring. -/
theorem logsHaveErrors_iff (logs patterns : List String) :
    logsHaveErrors logs patterns = true ↔
      ∃ log ∈ logs, ∃ p ∈ patterns, SubstrOf p log := by
  simp [logsHaveErrors, strIncludes_iff]

/-- The found flag of containsAny is the same hit condition. -/
theorem containsAny_found_iff (logs patterns : List String) :
    (containsAny logs patterns).found = true ↔
      ∃ log ∈ logs, ∃ p ∈ patterns, SubstrOf p log := by
  show (!(List.filter (fun log => patterns.any fun p => strIncludes log p)
      logs).isEmpty) = true ↔ _
  rw [Bool.not_eq_true', List.isEmpty_eq_false]
  constructor
  · intro h
    obtain ⟨x, hx⟩ := List.exists_mem_of_ne_nil _ h
    obtain ⟨hxl, hxp⟩ := List.mem_filter.mp hx
    simp only [List.any_eq_true, strIncludes_iff] at hxp
    obtain ⟨p, hp, hsub⟩ := hxp
    exact ⟨x, hxl, p, hp, hsub⟩
  · rintro ⟨log, hlog, p, hp, hsub⟩ hnil
    have hmem : log ∈ List.filter
        (fun log => patterns.any fun p => strIncludes log p) logs :=
      List.mem_filter.mpr ⟨hlog, by
        simp only [List.any_eq_true, strIncludes_iff]
        exact ⟨p, hp, hsub⟩⟩
    rw [hnil] at hmem
    exact List.not_mem_nil _ hmem

/-! ## Claims -/

/-- Claim C1 (the code contradicts the round-trip property it relies on).
First conjunct: the round-trip property itself holds of the tracer model —
an upload dispatched with a correlation id attached is reported by a trace
lookup for that same file and id.  Second conjunct: the multiple-file
scenario of part_005 nevertheless fails, because the upload step overwrites
the single context correlationId field on every iteration, so the trace step
looks file1.json and file2.json up with the id of file3.json and the trace
lookup finds no upload event for them: the scenario errors on file1.json
instead of succeeding for every file. -/
theorem claim_C1_correlation_roundtrip :
    (∀ (w : World) (fileName : String) (cid : Nat),
      (traceFileThroughWorkflow (uploadTrackedModel w fileName cid)
          fileName cid).s3Event.isSome = true) ∧
    pipelineScenario = .error "S3 event not found for file file1.json" := by
  constructor
  · intro w fileName cid
    show (List.find? (fun e => e.fileName == fileName && e.correlationId == cid)
        (w.uploads ++ [⟨fileName, cid⟩])).isSome = true
    rw [List.find?_isSome]
    exact ⟨⟨fileName, cid⟩, by simp, by simp⟩
  · rfl

/-- Claim C2 counterexample: the poll timeout the invocation-count step uses
is the constant 60000 ms whatever N and M are; for N = 10, M = 10 it is not
the 600000 ms of the ten-minute window, and it does not vary with M at all. -/
theorem claim_C2_counterexample :
    invokedTimesTimeoutMs 10 10 = 60000 ∧
    invokedTimesTimeoutMs 10 1 = invokedTimesTimeoutMs 10 10 ∧
    invokedTimesTimeoutMs 10 10 ≠ 10 * 60000 := by
  exact ⟨rfl, rfl, by decide⟩

/-- Claim C2 as amended: the step polls the condition that the execution
count over the last M minutes has reached N, succeeds immediately once the
condition holds, and uses the fixed 60000 ms timeout (not derived from M);
when fewer than N executions ever occur, the poll exhausts that fixed budget
and surfaces TimeoutError with elapsed time at least 60000 ms. -/
theorem claim_C2_invoked_times_fixed_timeout (ctx : Ctx) (counts : Nat → Nat)
    (expectedCount minutes intervalMs : Nat) (fn : String)
    (hfn : ctx.functionName = some fn) (hi : 0 < intervalMs) :
    lambdaInvokedTimesStep ctx counts expectedCount minutes intervalMs =
      .ok (pollAwait (fun i => decide (expectedCount ≤ counts i)) 60000 intervalMs) ∧
    (expectedCount ≤ counts 0 →
      lambdaInvokedTimesStep ctx counts expectedCount minutes intervalMs =
        .ok (.success 1 0)) ∧
    ((∀ i, counts i < expectedCount) →
      ∃ a e, lambdaInvokedTimesStep ctx counts expectedCount minutes intervalMs =
          .ok (.timeoutError a e) ∧ 60000 ≤ e ∧ e < 60000 + intervalMs) := by
  have hstep : lambdaInvokedTimesStep ctx counts expectedCount minutes intervalMs =
      .ok (pollAwait (fun i => decide (expectedCount ≤ counts i)) 60000 intervalMs) := by
    simp [lambdaInvokedTimesStep, hfn, invokedTimesTimeoutMs]
  refine ⟨hstep, ?_, ?_⟩
  · intro h
    rw [hstep, pollAwait_immediate _ _ _ (by simpa using h)]
  · intro h
    obtain ⟨a, e, he, h1, h2⟩ := pollAwait_never
      (fun i => decide (expectedCount ≤ counts i)) 60000 intervalMs
      (fun j => by simp only [decide_eq_false_iff_not, Nat.not_le]; exact h j)
      hi (by decide)
    exact ⟨a, e, by rw [hstep, he], h1, h2⟩

/-- Witness for claim C2: ten invocations requested within ten minutes while
only three ever occurred exhausts the fixed 60000 ms budget and raises
TimeoutError. -/
theorem claim_C2_witness :
    lambdaInvokedTimesStep { functionName := some "order-processor" }
        (fun _ => 3) 10 10 60000 =
      .ok (pollAwait (fun i => decide (10 ≤ (fun _ : Nat => 3) i)) 60000 60000) ∧
    (10 ≤ (fun _ : Nat => 3) 0 →
      lambdaInvokedTimesStep { functionName := some "order-processor" }
          (fun _ => 3) 10 10 60000 = .ok (.success 1 0)) ∧
    ((∀ i, (fun _ : Nat => 3) i < 10) →
      ∃ a e, lambdaInvokedTimesStep { functionName := some "order-processor" }
          (fun _ => 3) 10 10 60000 = .ok (.timeoutError a e) ∧
        60000 ≤ e ∧ e < 60000 + 60000) :=
  claim_C2_invoked_times_fixed_timeout { functionName := some "order-processor" }
    (fun _ => 3) 10 10 60000 "order-processor" rfl (by decide)

/-- Claim C3 (code bug): over a window with zero execution records the
metrics aggregation returns the defined no-data result without throwing
(executionCount 0, errors 0, averageDuration the NaN sentinel), and the Step
Function SLA step of part_005 does fail on an empty execution list; but the
acceptable-execution-metrics step of part_005 succeeds vacuously on the
no-data result, because NaN is greater than no threshold and zero errors do
not exceed five, where the claim requires the check to fail when no records
exist. -/
theorem claim_C3_no_data_metrics :
    (getLambdaExecutionMetrics []).executionCount = 0 ∧
    (getLambdaExecutionMetrics []).averageDuration = none ∧
    (getLambdaExecutionMetrics []).errors = 0 ∧
    (acceptableExecutionMetricsStep { functionName := some "data-processor" }
        []).result = .ok () ∧
    (stepFunctionSLAStep { stateMachineName := some "data-pipeline" } []
        (fun _ => ⟨true, []⟩)).result = .error "No Step Function executions found" :=
  ⟨rfl, rfl, rfl, rfl, rfl⟩

/-- A guarded failure succeeds exactly when the guard is false. -/
theorem guarded_ok_iff (b : Bool) (e : String) :
    ((if b then (.error e : Except String Unit) else .ok ()) = .ok ()) ↔ b = false := by
  cases b <;> simp

/-- Claim C4: the log-content check reports found exactly when some log entry
contains some pattern as a case-sensitive substring, a miss returns an empty
match list, and the two no-error log steps succeed exactly when no log entry
contains any of the four error indicator patterns. -/
theorem claim_C4_log_content_check (ctx : Ctx) (logs patterns : List String)
    (fn : String) (hfn : ctx.functionName = some fn) :
    ((containsAny logs patterns).found = true ↔
      ∃ log ∈ logs, ∃ p ∈ patterns, SubstrOf p log) ∧
    ((containsAny logs patterns).found = false →
      (containsAny logs patterns).matchingLogs = []) ∧
    ((featureLambdaLogsNoErrorsStep ctx logs).result = .ok () ↔
      ∀ log ∈ logs, ∀ p ∈ errorIndicators, ¬ SubstrOf p log) ∧
    ((featureProcessingNoErrorsStep ctx logs).result = .ok () ↔
      ∀ log ∈ logs, ∀ p ∈ errorIndicators, ¬ SubstrOf p log) := by
  refine ⟨containsAny_found_iff logs patterns, ?_, ?_, ?_⟩
  · intro h
    show List.filter (fun log => patterns.any fun p => strIncludes log p) logs = []
    have h2 : (!(List.filter (fun log => patterns.any fun p => strIncludes log p)
        logs).isEmpty) = false := h
    have h3 : (List.filter (fun log => patterns.any fun p => strIncludes log p)
        logs).isEmpty = true := by simpa using h2
    exact List.isEmpty_iff.mp h3
  · have hr : (featureLambdaLogsNoErrorsStep ctx logs).result =
        if logsHaveErrors logs errorIndicators then
          .error "Lambda logs contain error indicators" else .ok () := by
      simp [featureLambdaLogsNoErrorsStep, hfn]
    rw [hr, guarded_ok_iff, ← Bool.not_eq_true, logsHaveErrors_iff]
    simp only [not_exists, not_and]
  · have hr : (featureProcessingNoErrorsStep ctx logs).result =
        if logsHaveErrors logs errorIndicators then
          .error "Processing completed with errors" else .ok () := by
      simp [featureProcessingNoErrorsStep, hfn]
    rw [hr, guarded_ok_iff, ← Bool.not_eq_true, logsHaveErrors_iff]
    simp only [not_exists, not_and]

/-- Witness for claim C4: a log set containing none of the patterns yields an
empty match list. -/
theorem claim_C4_witness :
    (containsAny ["2024 INFO started", "request handled"]
      ["ERROR", "Exception"]).matchingLogs = [] :=
  (claim_C4_log_content_check { functionName := some "processor" }
      ["2024 INFO started", "request handled"] ["ERROR", "Exception"]
      "processor" rfl).2.1 (by decide)

/-- Claim C5: resource location is idempotent with caching: once a (kind,
name) pair has been located successfully, locating it again returns the
identical handle from the unchanged cache and issues no provider query. -/
theorem claim_C5_locate_idempotent (env : Env) (cache : LocatorCache)
    (k : ResourceKind) (n : String) (h : ResourceHandle) (cache2 : LocatorCache)
    (q : Bool) (hloc : locate env cache k n = ⟨.ok h, cache2, q⟩) :
    locate env cache2 k n = ⟨.ok h, cache2, false⟩ := by
  unfold locate at hloc ⊢
  rcases hfind : cache.entries.find? (fun h0 => h0.kind == k && h0.name == n)
    with _ | h0
  · rw [hfind] at hloc
    rcases hres : findResource env k n with _ | ident
    · rw [hres] at hloc
      simp at hloc
    · rw [hres] at hloc
      simp only [LocateResult.mk.injEq, Except.ok.injEq] at hloc
      obtain ⟨hh, hc, _⟩ := hloc
      subst hh
      subst hc
      rw [show (⟨cache.entries ++ [(⟨k, n, ident⟩ : ResourceHandle)]⟩ :
        LocatorCache).entries = cache.entries ++ [⟨k, n, ident⟩] from rfl]
      rw [find?_append_of_none _ _ hfind, List.find?_cons_of_pos _ (by simp)]
  · rw [hfind] at hloc
    simp only [LocateResult.mk.injEq, Except.ok.injEq] at hloc
    obtain ⟨hh, hc, _⟩ := hloc
    subst hh
    subst hc
    rw [hfind]

/-- Witness for claim C5: after the first successful lookup of a queue, the
second lookup is a pure cache hit. -/
theorem claim_C5_witness :
    locate ⟨[(.queue, "orders", "sqs-url")]⟩ ⟨[⟨.queue, "orders", "sqs-url"⟩]⟩
        .queue "orders" =
      ⟨.ok ⟨.queue, "orders", "sqs-url"⟩, ⟨[⟨.queue, "orders", "sqs-url"⟩]⟩, false⟩ :=
  claim_C5_locate_idempotent ⟨[(.queue, "orders", "sqs-url")]⟩ ⟨[]⟩ .queue "orders"
    ⟨.queue, "orders", "sqs-url"⟩ ⟨[⟨.queue, "orders", "sqs-url"⟩]⟩ true rfl

/-- Claim C6 counterexample: resolving a non-existent SQS queue does not fail
with a raised typed NotFoundError: findQueue returns the empty string, a
successful return, and the failure surfaced to the scenario is a plain Error
thrown by the step definition itself after inspecting that return value. -/
theorem claim_C6_counterexample :
    findQueue ⟨[]⟩ "missing-queue" = "" ∧
    notificationSystemStep ⟨[]⟩ "missing-queue" =
      .error "SQS queue missing-queue not found" :=
  ⟨rfl, rfl⟩

/-- Claim C6 as amended: for every queue name absent from the configured
environment, findQueue returns the empty string rather than raising a typed
error, and the step definition detects the empty result and throws a plain
Error, so the scenario receives a failure and never a usable handle. -/
theorem claim_C6_queue_not_found (env : Env) (queueName : String)
    (habs : findResource env .queue queueName = none) :
    findQueue env queueName = "" ∧
    notificationSystemStep env queueName =
      .error ("SQS queue " ++ queueName ++ " not found") := by
  have hq : findQueue env queueName = "" := by
    rw [findQueue, habs]
  exact ⟨hq, by simp [notificationSystemStep, hq]⟩

/-- Witness for claim C6. -/
theorem claim_C6_witness :
    findQueue ⟨[(.bucket, "data", "data-id")]⟩ "missing-queue" = "" ∧
    notificationSystemStep ⟨[(.bucket, "data", "data-id")]⟩ "missing-queue" =
      .error ("SQS queue " ++ "missing-queue" ++ " not found") :=
  claim_C6_queue_not_found ⟨[(.bucket, "data", "data-id")]⟩ "missing-queue" rfl

/-- Claim C7: every embedded step that depends on a scenario-context field
fails fast when the field is unset: it raises the precondition error with an
empty provider-call trace, leaving the observable state unchanged.  One
conjunct per dependent field, over the cited steps. -/
theorem claim_C7_fail_fast (ctx : Ctx) (fileName content now : String)
    (cid : Nat) (records : List ExecutionRecord) (executions : List SfnExecution)
    (verify : String → SLAResult) (queue : List NotificationMessage)
    (userEmail ts : String) (w : World) (fileExists : Nat → Bool)
    (intervalMs : Nat) :
    (ctx.bucketName = none →
      uploadCsvStep ctx fileName cid = ⟨[], .error "Bucket name is not set"⟩ ∧
      uploadFileEnhancedStep ctx fileName content now =
        ⟨[], .error "Bucket name is not set. Make sure to create a bucket first."⟩ ∧
      bucketContainsFileStep ctx fileName fileExists intervalMs =
        ⟨[], .error "Bucket name is not set"⟩) ∧
    (ctx.functionName = none →
      acceptableExecutionMetricsStep ctx records =
        ⟨[], .error "Lambda function name is not set"⟩) ∧
    (ctx.stateMachineName = none →
      stepFunctionSLAStep ctx executions verify =
        ⟨[], .error "Step Function name is not set"⟩) ∧
    (ctx.notificationQueueUrl = none →
      triggerNotificationStep ctx queue userEmail ts =
        ⟨[], .error "Notification queue URL is not set"⟩) ∧
    (ctx.correlationId = none →
      traceAllFilesStep ctx w = ⟨[], .error "Correlation ID is not set"⟩) := by
  refine ⟨fun h => ⟨?_, ?_, ?_⟩, fun h => ?_, fun h => ?_, fun h => ?_,
    fun h => ?_⟩ <;>
  simp [uploadCsvStep, uploadFileEnhancedStep, bucketContainsFileStep,
    acceptableExecutionMetricsStep, stepFunctionSLAStep, triggerNotificationStep,
    traceAllFilesStep, h]

/-- Witness for claim C7: on a fresh, empty context every cited step raises
its precondition error without any provider call. -/
theorem claim_C7_witness :
    uploadCsvStep {} "customers.csv" 0 = ⟨[], .error "Bucket name is not set"⟩ ∧
    acceptableExecutionMetricsStep {} [] =
      ⟨[], .error "Lambda function name is not set"⟩ ∧
    stepFunctionSLAStep {} [] (fun _ => ⟨true, []⟩) =
      ⟨[], .error "Step Function name is not set"⟩ ∧
    triggerNotificationStep {} [] "jane@example.com" "2024-01-01T00:00:00Z" =
      ⟨[], .error "Notification queue URL is not set"⟩ ∧
    traceAllFilesStep {} ⟨[], []⟩ = ⟨[], .error "Correlation ID is not set"⟩ := by
  have h := claim_C7_fail_fast {} "customers.csv" "" "" 0 [] []
    (fun _ => ⟨true, []⟩) [] "jane@example.com" "2024-01-01T00:00:00Z"
    ⟨[], []⟩ (fun _ => false) 1000
  exact ⟨(h.1 rfl).1, h.2.1 rfl, h.2.2.1 rfl, h.2.2.2.1 rfl, h.2.2.2.2 rfl⟩

/-- Claim C8: for every condition and every poll policy, a condition already
true at call time makes await return success immediately: one evaluation and
zero sleep intervals. -/
theorem claim_C8_poller_immediate (cond : Nat → Bool) (timeoutMs intervalMs : Nat)
    (h : cond 0 = true) :
    pollAwait cond timeoutMs intervalMs = .success 1 0 :=
  pollAwait_immediate cond timeoutMs intervalMs h

/-- Witness for claim C8. -/
theorem claim_C8_witness :
    pollAwait (fun _ => true) 30000 1000 = .success 1 0 :=
  claim_C8_poller_immediate (fun _ => true) 30000 1000 rfl

/-- Claim C9: the notification trigger step appends to the queue a message
whose email field is the given user email and whose priority field is high;
on that message the priority verification always succeeds, and the email
verification succeeds exactly when the user email contains an at sign. -/
theorem claim_C9_notification_roundtrip (ctx : Ctx)
    (queue : List NotificationMessage) (userEmail timestamp url : String)
    (hq : ctx.notificationQueueUrl = some url) :
    (triggerNotificationStep ctx queue userEmail timestamp).result =
      .ok (queue ++ [triggerNotificationEvent userEmail timestamp]) ∧
    (triggerNotificationEvent userEmail timestamp).email = userEmail ∧
    (triggerNotificationEvent userEmail timestamp).priority = "high" ∧
    priorityVerificationStep (triggerNotificationEvent userEmail timestamp) =
      .ok () ∧
    (emailVerificationStep (triggerNotificationEvent userEmail timestamp) =
        .ok () ↔ '@' ∈ userEmail.data) := by
  refine ⟨by simp [triggerNotificationStep, hq], rfl, rfl, rfl, ?_⟩
  by_cases hat : strIncludes userEmail "@" = true
  · have hne : userEmail ≠ "" := by
      intro he
      rw [he] at hat
      exact absurd hat (by decide)
    have hfal : jsFalsyStr userEmail = false := by
      rw [jsFalsyStr]
      exact beq_eq_false_iff_ne.mpr hne
    simp [emailVerificationStep, triggerNotificationEvent, hfal, hat,
      (strIncludes_at_iff userEmail).mp hat]
  · have hf : strIncludes userEmail "@" = false := by
      rwa [Bool.not_eq_true] at hat
    have hnm : ¬ '@' ∈ userEmail.data :=
      fun hmem => hat ((strIncludes_at_iff userEmail).mpr hmem)
    simp [emailVerificationStep, triggerNotificationEvent, hf, hnm]

/-- Witness for claim C9. -/
theorem claim_C9_witness :
    (triggerNotificationStep { notificationQueueUrl := some "sqs-url" } []
        "john.doe@example.com" "2024-01-01T00:00:00Z").result =
      .ok ([] ++ [triggerNotificationEvent "john.doe@example.com"
        "2024-01-01T00:00:00Z"]) ∧
    (triggerNotificationEvent "john.doe@example.com"
      "2024-01-01T00:00:00Z").email = "john.doe@example.com" ∧
    (triggerNotificationEvent "john.doe@example.com"
      "2024-01-01T00:00:00Z").priority = "high" ∧
    priorityVerificationStep (triggerNotificationEvent "john.doe@example.com"
      "2024-01-01T00:00:00Z") = .ok () ∧
    (emailVerificationStep (triggerNotificationEvent "john.doe@example.com"
        "2024-01-01T00:00:00Z") = .ok () ↔
      '@' ∈ "john.doe@example.com".data) :=
  claim_C9_notification_roundtrip { notificationQueueUrl := some "sqs-url" } []
    "john.doe@example.com" "2024-01-01T00:00:00Z" "sqs-url" rfl

/-- Claim C10: the execution-ARN capture step returns the context unchanged
when executionArn is already set; it errors when no executions, or none with
a start date, exist; and otherwise it stores the ARN of an execution with a
start date that is maximal among all executions that have one. -/
theorem claim_C10_capture_execution_arn (ctx : Ctx)
    (executions : List SfnExecution) (sm : String)
    (hsm : ctx.stateMachineName = some sm) :
    (∀ a, ctx.executionArn = some a →
      captureExecutionArnStep ctx executions = .ok ctx) ∧
    (ctx.executionArn = none → executions = [] →
      captureExecutionArnStep ctx executions =
        .error ("No executions found for Step Function \"" ++ sm ++
          "\". Make sure the Step Function was triggered.")) ∧
    (ctx.executionArn = none → executions ≠ [] →
      executions.filter (fun e => e.startDate.isSome) = [] →
      captureExecutionArnStep ctx executions =
        .error ("No recent executions found for Step Function \"" ++ sm ++ "\".")) ∧
    (ctx.executionArn = none →
      (∃ e ∈ executions, e.startDate.isSome = true) →
      ∃ m, captureExecutionArnStep ctx executions =
          .ok { ctx with executionArn := some m.executionArn } ∧
        m ∈ executions ∧ m.startDate.isSome = true ∧
        ∀ x ∈ executions, x.startDate.isSome = true → startMs x ≤ startMs m) := by
  refine ⟨?_, ?_, ?_, ?_⟩
  · intro a ha
    simp [captureExecutionArnStep, hsm, ha]
  · intro h1 h2
    subst h2
    simp [captureExecutionArnStep, hsm, h1]
  · intro h1 hne hf
    obtain ⟨e0, es, rfl⟩ := List.exists_cons_of_ne_nil hne
    simp [captureExecutionArnStep, hsm, h1, hf, sortByStartDesc]
  · intro h1 hex
    obtain ⟨e0, he0, hsome⟩ := hex
    have hne : executions ≠ [] := by
      rintro rfl
      exact List.not_mem_nil _ he0
    obtain ⟨x0, xs, rfl⟩ := List.exists_cons_of_ne_nil hne
    have hfne : (x0 :: xs).filter (fun e => e.startDate.isSome) ≠ [] := by
      intro hf
      have hm : e0 ∈ (x0 :: xs).filter (fun e => e.startDate.isSome) :=
        List.mem_filter.mpr ⟨he0, hsome⟩
      rw [hf] at hm
      exact List.not_mem_nil _ hm
    rcases hs : sortByStartDesc ((x0 :: xs).filter (fun e => e.startDate.isSome))
      with _ | ⟨m, rest⟩
    · exact absurd (sortByStartDesc_eq_nil_iff.mp hs) hfne
    · obtain ⟨hm, hmax⟩ := sortByStartDesc_head_max hs
      obtain ⟨hmem1, hmem2⟩ := List.mem_filter.mp hm
      refine ⟨m, ?_, hmem1, hmem2, ?_⟩
      · simp [captureExecutionArnStep, hsm, h1, hs]
      · intro x hx hxs
        exact hmax x (List.mem_filter.mpr ⟨hx, hxs⟩)

/-- Witness for claim C10: among three executions, two with start dates, the
step captures the ARN of the most recent one. -/
theorem claim_C10_witness :
    ∃ m, captureExecutionArnStep { stateMachineName := some "order-pipeline" }
        [⟨"arn-1", some 100⟩, ⟨"arn-2", some 200⟩, ⟨"arn-3", none⟩] =
      .ok { ({ stateMachineName := some "order-pipeline" } : Ctx) with
        executionArn := some m.executionArn } ∧
    m ∈ [(⟨"arn-1", some 100⟩ : SfnExecution), ⟨"arn-2", some 200⟩, ⟨"arn-3", none⟩] ∧
    m.startDate.isSome = true ∧
    ∀ x ∈ [(⟨"arn-1", some 100⟩ : SfnExecution), ⟨"arn-2", some 200⟩, ⟨"arn-3", none⟩],
      x.startDate.isSome = true → startMs x ≤ startMs m :=
  (claim_C10_capture_execution_arn { stateMachineName := some "order-pipeline" }
      [⟨"arn-1", some 100⟩, ⟨"arn-2", some 200⟩, ⟨"arn-3", none⟩]
      "order-pipeline" rfl).2.2.2 rfl
    ⟨⟨"arn-1", some 100⟩, by simp, rfl⟩

end ATF
